import Mathlib

/- Shallow embedding of the annotation editor and saver of
webtool/static/js/explorer.js (the canonical copy of the two near-duplicate
scripts in this repository).  DOM state is modelled explicitly: the schema
editor is a list of editor rows, per-item widgets are records, and the save
machinery is a small state machine over the disabled/edited flags. -/

inductive FieldType
  | text
  | textarea
  | dropdown
  | checkbox
deriving DecidableEq

/-- The list named text_fields in applyAnnotationFields. -/
def text_fields : List FieldType := [FieldType.textarea, FieldType.text]

/-- One saved field definition, as stored in the annotation_fields object:
type, label and (for dropdown/checkbox rows that kept at least one option)
the ordered option list. -/
structure FieldDef where
  ftype : FieldType
  label : String
  options : Option (List (String × String))
deriving DecidableEq

/-- One row of the schema editor as parseAnnotationFields reads it from the
grid of threes: the id parsed from the label input element, the raw text of
the label input, the selected type and the option inputs (id, current text)
in DOM order. -/
structure EditorField where
  field_id : String
  label_input : String
  ftype : FieldType
  option_inputs : List (String × String)
deriving DecidableEq

/-- Characters matched by the whitespace character class of the regular
expression used in label.replace (those occurring in form input). -/
def isJsWs (c : Char) : Bool :=
  c == ' ' || c == '\t' || c == '\n' || c == '\r' || c == '\x0b' || c == '\x0c'

/-- The global whitespace replacement performed on labels: every maximal run
of whitespace characters becomes a single space.  The flag records whether
the previous character was part of a whitespace run. -/
def collapseWsAux : Bool → List Char → List Char
  | _, [] => []
  | inRun, c :: rest =>
    if isJsWs c then
      if inRun then collapseWsAux true rest
      else ' ' :: collapseWsAux true rest
    else c :: collapseWsAux false rest

def collapseWs (l : List Char) : List Char := collapseWsAux false l

/-- label_field.val().replace of parseAnnotationFields, as a string map. -/
def collapseLabel (s : String) : String := String.mk (collapseWs s.data)

/-- The apostrophe character, kept out of the literals below. -/
def apos : String := String.mk [Char.ofNat 39]

def msgEmptyLabel : String := "Field labels can" ++ apos ++ "t be empty"

def msgDuplicateLabel : String := "Field labels must be unique"

def msgReservedLabel (label : String) : String :=
  "Field label " ++ label ++ " is already present as a dataset item, please rename."

def msgDuplicateOption : String := "Fields must be unique"

def msgNoOptions : String := "At least one field must be added"

/-- The mutable state threaded through the each-loop of
parseAnnotationFields: the object being built, the warning string and the
labels pushed so far. -/
structure ParseState where
  annotation_fields : List (String × FieldDef)
  warning : String
  labels_added : List String
deriving DecidableEq

/-- Assignment to a javascript object key: replace in place when the key is
present, append otherwise. -/
def upsert (m : List (String × FieldDef)) (k : String) (v : FieldDef) :
    List (String × FieldDef) :=
  match m with
  | [] => [(k, v)]
  | (k0, v0) :: rest => if k0 = k then (k0, v) :: rest else (k0, v0) :: upsert rest k v

/-- The state of the inner options each-loop of parseAnnotationFields. -/
structure OptState where
  options : List (String × String)
  option_labels : List String
  no_options_added : Bool
  warning : String
deriving DecidableEq

/-- One iteration of the options each-loop: push a fresh non-empty option,
warn on a duplicate of an already pushed label, skip empty labels. -/
def processOption (st : OptState) (opt : String × String) : OptState :=
  if opt.2 ∉ st.option_labels ∧ 0 < opt.2.length then
    { st with
      options := st.options ++ [opt],
      option_labels := st.option_labels ++ [opt.2],
      no_options_added := false }
  else if opt.2 ∈ st.option_labels then
    { st with warning := msgDuplicateOption }
  else st

/-- The three-way label validation chain of parseAnnotationFields: empty,
then duplicate, then reserved column name; the first hit overwrites the
warning carried in, otherwise the warning is untouched. -/
def labelWarning (original_columns labels_added : List String) (label w : String) :
    String :=
  if label.length = 0 then msgEmptyLabel
  else if label ∈ labels_added then msgDuplicateLabel
  else if label ∈ original_columns then msgReservedLabel label
  else w

/-- The option-processing part of one field: fold the option inputs, then
overwrite the warning when nothing was pushed at all. -/
def optionPhase (opts : List (String × String)) (w : String) : OptState :=
  let ost := opts.foldl processOption
    { options := [], option_labels := [], no_options_added := true, warning := w }
  { ost with warning := if ost.no_options_added then msgNoOptions else ost.warning }

/-- One iteration of the outer each-loop of parseAnnotationFields over an
editor row. -/
def processField (original_columns : List String) (st : ParseState)
    (f : EditorField) : ParseState :=
  let label := collapseLabel f.label_input
  let w1 := labelWarning original_columns st.labels_added label st.warning
  let labels2 := st.labels_added ++ [label]
  if f.ftype = FieldType.text ∨ f.ftype = FieldType.textarea then
    { annotation_fields := upsert st.annotation_fields f.field_id ⟨f.ftype, label, none⟩,
      warning := w1,
      labels_added := labels2 }
  else
    let ost := optionPhase f.option_inputs w1
    { annotation_fields :=
        if 0 < ost.options.length then
          upsert st.annotation_fields f.field_id ⟨f.ftype, collapseLabel label, some ost.options⟩
        else st.annotation_fields,
      warning := ost.warning,
      labels_added := labels2 }

/-- The duck-typed return value of parseAnnotationFields: a warning string
or the schema object. -/
inductive ParseResult
  | str (w : String)
  | obj (af : List (String × FieldDef))
deriving DecidableEq

/-- parseAnnotationFields of explorer.js: walk the editor rows, validate,
and return the warning string when one was set, the schema object
otherwise. -/
def parseAnnotationFields (fields : List EditorField)
    (original_columns : List String) : ParseResult :=
  let st := fields.foldl (processField original_columns) ⟨[], "", []⟩
  if 0 < st.warning.length then ParseResult.str st.warning else ParseResult.obj st.annotation_fields

/-- Specification-side view of the option inputs of a row: the non-empty
option labels in order. -/
def nonemptyOptionLabels : List (String × String) → List String
  | [] => []
  | o :: rest =>
    if 0 < o.2.length then o.2 :: nonemptyOptionLabels rest
    else nonemptyOptionLabels rest

/-- Specification-side validity of an option group: at least one non-empty
option, and the non-empty option labels pairwise distinct. -/
def OptionsValid (opts : List (String × String)) : Prop :=
  nonemptyOptionLabels opts ≠ [] ∧ (nonemptyOptionLabels opts).Nodup

/-- Specification-side failure of a single editor row, given the labels of
the rows parsed before it: empty label, duplicate label, reserved label, or
(for option-bearing types) an invalid option group. -/
def FieldFails (original_columns prev : List String) (f : EditorField) : Prop :=
  (collapseLabel f.label_input).length = 0 ∨
  collapseLabel f.label_input ∈ prev ∨
  collapseLabel f.label_input ∈ original_columns ∨
  ((f.ftype = FieldType.dropdown ∨ f.ftype = FieldType.checkbox) ∧
    ¬ OptionsValid f.option_inputs)

/-- Some editor row fails validation (labels of earlier rows accumulate,
exactly as labels_added does in the source). -/
def AnyFieldFails (original_columns : List String) :
    List String → List EditorField → Prop
  | _, [] => False
  | prev, f :: rest =>
    FieldFails original_columns prev f ∨
    AnyFieldFails original_columns (prev ++ [collapseLabel f.label_input]) rest

/-- Specification-side warning message of the label chain, in the documented
order. -/
def labelMsg (original_columns prev : List String) (label : String) :
    Option String :=
  if label.length = 0 then some msgEmptyLabel
  else if label ∈ prev then some msgDuplicateLabel
  else if label ∈ original_columns then some (msgReservedLabel label)
  else none

/-- Specification-side warning message of the option checks of one row. -/
def optionMsgCore (opts : List (String × String)) : Option String :=
  if nonemptyOptionLabels opts = [] then some msgNoOptions
  else if ¬ (nonemptyOptionLabels opts).Nodup then some msgDuplicateOption
  else none

/-- Specification-side warning of the option checks, only performed for
option-bearing types. -/
def optionMsg (f : EditorField) : Option String :=
  if f.ftype = FieldType.text ∨ f.ftype = FieldType.textarea then none
  else optionMsgCore f.option_inputs

/-- Specification-side final warning of one row: the option checks run after
the label chain and overwrite its message. -/
def fieldMsg (original_columns prev : List String) (f : EditorField) :
    Option String :=
  match optionMsg f with
  | some m => some m
  | none => labelMsg original_columns prev (collapseLabel f.label_input)

/-- Specification-side warning of a whole editor state: the message of the
last failing row (later assignments overwrite earlier ones). -/
def lastFieldMsg (original_columns : List String) :
    List String → List EditorField → Option String
  | _, [] => none
  | prev, f :: rest =>
    match lastFieldMsg original_columns (prev ++ [collapseLabel f.label_input]) rest with
    | some m => some m
    | none => fieldMsg original_columns prev f

/-- Mirror of the branch structure of the options each-loop recording
whether the duplicate warning fires at some iteration. -/
def dupFrom : List String → List (String × String) → Bool
  | _, [] => false
  | seen, o :: rest =>
    if o.2 ∉ seen ∧ 0 < o.2.length then dupFrom (seen ++ [o.2]) rest
    else if o.2 ∈ seen then true
    else dupFrom seen rest

/-- Mirror of the options each-loop recording whether no option at all was
pushed. -/
def noneKept : List String → List (String × String) → Bool
  | _, [] => true
  | seen, o :: rest =>
    if o.2 ∉ seen ∧ 0 < o.2.length then false
    else noneKept seen rest

/- ---------------------------------------------------------------------
Per-item widgets and parseAnnotation (the value collector).
--------------------------------------------------------------------- -/

/-- A DOM element as far as the collector looks at it: tag name, checked
flag, value attribute and class list. -/
structure DomEl where
  tag : String
  checked : Bool
  valAttr : Option String
  classes : List String
deriving DecidableEq

/-- jQuery matching of the selector for checked inputs: only checkable
elements that are actually checked match; a div never does. -/
def jqIsChecked (e : DomEl) : Bool :=
  (e.tag == "input" || e.tag == "option") && e.checked

/-- jQuery val() of an element, seen as a string. -/
def jqValStr (e : DomEl) : String := e.valAttr.getD ""

def classAt (e : DomEl) (i : Nat) : String := (e.classes.get? i).getD ""

/-- The javascript String.replace of a marker by the empty string, as used
on class tokens (the marker occurs at the front or not at all). -/
def stripPrefixStr (pre s : String) : String :=
  if pre.data.isPrefixOf s.data then String.mk (s.data.drop pre.data.length) else s

/-- One rendered per-item widget: the enclosing post-annotation div, the
label span text, the current text-input value, the dropdown selection and
the checkbox input elements. -/
structure PostAnnotationEl where
  el : DomEl
  label : String
  textInputVal : String
  dropdownVal : String
  optionInputs : List DomEl
deriving DecidableEq

/-- A collected annotation value: a string, or a list of option labels. -/
inductive AnnVal
  | s (v : String)
  | list (vs : List String)
deriving DecidableEq

/-- The record built by parseAnnotation. -/
structure AnnotationRecord where
  field_id : String
  item_id : String
  label : String
  rtype : String
  value : Option AnnVal
  author : String
  by_processor : Bool
deriving DecidableEq

/-- The checkbox branch of parseAnnotation: the each-loop over the option
inputs tests ann (the enclosing post-annotation div bound outside the
callback) against the checked selector and pushes ann.val(), exactly as the
source does. -/
def parseCheckboxValue (ann : DomEl) (inputs : List DomEl) :
    Option (List String) :=
  let val := inputs.foldl
    (fun acc _ => if jqIsChecked ann then acc ++ [jqValStr ann] else acc)
    ([] : List String)
  if 0 < val.length then some val else none

/-- parseAnnotation of explorer.js: derive the identity from the class
tokens and read the value per type. -/
def parseAnnotationWidget (w : PostAnnotationEl) : AnnotationRecord :=
  let ann := w.el
  let field_id := stripPrefixStr "field-" (classAt ann 1)
  let rtype := stripPrefixStr "type-" (classAt ann 2)
  let item_id := stripPrefixStr "item-id-" (classAt ann 3)
  let value : Option AnnVal :=
    if rtype = "text" ∨ rtype = "textarea" then some (AnnVal.s w.textInputVal)
    else if rtype = "dropdown" then some (AnnVal.s w.dropdownVal)
    else if rtype = "checkbox" then Option.map AnnVal.list (parseCheckboxValue ann w.optionInputs)
    else none
  { field_id := field_id, item_id := item_id, label := w.label, rtype := rtype,
    value := value, author := "Jan", by_processor := false }

/-- Specification-side value of a checkbox widget: the values of the checked
option inputs, in order. -/
def checkedOptionLabels (inputs : List DomEl) : List String :=
  (inputs.filter (fun e => jqIsChecked e)).map jqValStr

/- ---------------------------------------------------------------------
applyAnnotationFields: reconciliation of per-item widgets with a schema.
--------------------------------------------------------------------- -/

/-- The rendered state of one field across the page: widget type, label, the
current value of each item widget and the rendered option elements. -/
structure FieldState where
  ftype : FieldType
  label : String
  values : List String
  opts : List (String × String)
deriving DecidableEq

/-- The value carried from an old text widget into its replacement: copied
when non-empty, the empty string otherwise. -/
def carriedVal (v : String) : String := if 0 < v.length then v else ""

/-- The per-field part of applyAnnotationFields for a field already on the
page: relabel; on a type change between the two text kinds, replace each
input element carrying over its value; on any other type change remove the
widgets (returning none queues the field in fields_to_add); on an unchanged
option-bearing type, diff the rendered options to the new option list. -/
def convertFieldState (fd : FieldDef) (st : FieldState) : Option FieldState :=
  if fd.ftype = st.ftype then
    some { st with
           label := fd.label,
           opts := if fd.ftype = FieldType.dropdown ∨ fd.ftype = FieldType.checkbox
                   then fd.options.getD [] else st.opts }
  else if text_fields.contains fd.ftype ∧ text_fields.contains st.ftype then
    some { ftype := fd.ftype, label := fd.label,
           values := st.values.map carriedVal, opts := st.opts }
  else none

/-- A freshly added field: one empty widget per post, rendered from the
field definition. -/
def freshFieldState (fd : FieldDef) (nposts : Nat) : FieldState :=
  { ftype := fd.ftype, label := fd.label,
    values := List.replicate nposts "", opts := fd.options.getD [] }

/-- The whole widget reconciliation of applyAnnotationFields: keep and
convert fields still in the schema, drop fields no longer present, and
append fresh widgets for new fields and for incompatible type changes. -/
def reconcilePage (af : List (String × FieldDef))
    (page : List (String × FieldState)) (nposts : Nat) :
    List (String × FieldState) :=
  let kept := page.filterMap (fun p =>
    match List.lookup p.1 af with
    | none => none
    | some fd => Option.map (fun st => (p.1, st)) (convertFieldState fd p.2))
  let added := af.filter (fun q =>
    match List.lookup q.1 page with
    | none => true
    | some st => decide (convertFieldState q.2 st = none))
  kept ++ added.map (fun q => (q.1, freshFieldState q.2 nposts))

/- ---------------------------------------------------------------------
The AJAX layer: javascript values, the length guard, response handling.
--------------------------------------------------------------------- -/

/-- The javascript values this script passes around: undefined, numbers,
strings, and featureless plain objects. -/
inductive JSVal
  | undef
  | num (n : Int)
  | str (s : String)
  | objv
deriving DecidableEq

/-- Numeric coercion for comparison operators; none stands for NaN:
undefined coerces to NaN, a plain object stringifies to a non-numeric
string and also yields NaN. -/
def jsToNumber : JSVal → Option Int
  | JSVal.num n => some n
  | JSVal.undef => none
  | JSVal.objv => none
  | JSVal.str s => if s = "" then some 0 else s.toInt?

/-- The javascript comparison v less-than k: false whenever either side
coerces to NaN. -/
def jsLt (a : JSVal) (k : Int) : Bool :=
  match jsToNumber a with
  | some n => decide (n < k)
  | none => false

/-- Reading annotation_fields.length on the plain schema object: the keys
are field ids, so the property is a field definition when a field happens to
be keyed length, and undefined otherwise. -/
def lengthProp (af : List (String × FieldDef)) : JSVal :=
  match List.lookup "length" af with
  | some _ => JSVal.objv
  | none => JSVal.undef

/-- The POST that persists a schema. -/
structure FieldsRequest where
  url : String
  body : List (String × FieldDef)
deriving DecidableEq

/-- saveAnnotationFields of explorer.js: the early-return guard compares the
length property against 1, then the schema is posted. -/
def saveAnnotationFields (dataset_key : String)
    (af : List (String × FieldDef)) : Option FieldsRequest :=
  if jsLt (lengthProp af) 1 then none
  else some { url := "explorer/save_annotation_fields/" ++ dataset_key, body := af }

/-- The observable effects of applyAnnotationFields: the warning shown (if
any), the schema POST (if any) and the page widgets afterwards. -/
structure ApplyResult where
  warned : Option String
  posted : Option FieldsRequest
  page : List (String × FieldState)
deriving DecidableEq

/-- applyAnnotationFields of explorer.js: on a string result warn and
return; otherwise persist the schema and reconcile the page. -/
def applyAnnotationFields (fields : List EditorField)
    (original_columns : List String) (dataset_key : String)
    (page : List (String × FieldState)) (nposts : Nat) : ApplyResult :=
  match parseAnnotationFields fields original_columns with
  | ParseResult.str w => { warned := some w, posted := none, page := page }
  | ParseResult.obj af =>
    { warned := none,
      posted := saveAnnotationFields dataset_key af,
      page := reconcilePage af page nposts }

/-- Outcome of the save_annotation_fields response handler. -/
inductive FieldsSaveOutcome
  | hideEditorDisableApply
  | warnCouldNotSave
deriving DecidableEq

/-- The success test of the save_annotation_fields handler: strict equality
with the literal string success. -/
def saveAnnotationFieldsResponse (response : JSVal) : FieldsSaveOutcome :=
  if response = JSVal.str "success" then FieldsSaveOutcome.hideEditorDisableApply
  else FieldsSaveOutcome.warnCouldNotSave

/-- Outcome of the save_annotations response handler. -/
inductive AnnSaveOutcome
  | savedAndDisabled
  | alertReenable
deriving DecidableEq

/-- The success test of the save_annotations handler. -/
def saveAnnotationsResponse (response : JSVal) : AnnSaveOutcome :=
  if response = JSVal.str "success" then AnnSaveOutcome.savedAndDisabled
  else AnnSaveOutcome.alertReenable

/- ---------------------------------------------------------------------
The save trigger state machine (init wiring plus saveAnnotations).
--------------------------------------------------------------------- -/

/-- The page state the save wiring observes: the disabled class on the
save control, the edits_made flag, and the number of save_annotations
requests issued. -/
structure SaveState where
  disabled : Bool
  editsMade : Bool
  requests : Nat
deriving DecidableEq

/-- The three ways a save can be triggered. -/
inductive SaveTrigger
  | manualClick
  | paginationClick
  | timerTick
deriving DecidableEq

/-- Entering saveAnnotations: the request is issued and disableSaving adds
the disabled class before any other handler can run. -/
def saveAnnotationsCall (s : SaveState) : SaveState :=
  { s with disabled := true, requests := s.requests + 1 }

/-- The guards of the three trigger handlers in init: manual click and
pagination check the disabled class, the ten-second timer additionally
checks edits_made. -/
def triggerStep : SaveTrigger → SaveState → SaveState
  | SaveTrigger.manualClick, s => if s.disabled then s else saveAnnotationsCall s
  | SaveTrigger.paginationClick, s => if s.disabled then s else saveAnnotationsCall s
  | SaveTrigger.timerTick, s =>
    if s.disabled = false ∧ s.editsMade = true then saveAnnotationsCall s else s

/-- The response callbacks of saveAnnotations: success re-enables and then
re-adds the disabled class, failure and error leave the control enabled. -/
def responseStep (success : Bool) (s : SaveState) : SaveState :=
  if success then { s with disabled := true } else { s with disabled := false }

/-- A keydown or click on an annotation widget: enableSaving plus
edits_made. -/
def editStep (s : SaveState) : SaveState := { s with disabled := false, editsMade := true }

/- ---------------------------------------------------------------------
Option groups of the schema editor: addOptions and deleteOption.
--------------------------------------------------------------------- -/

/-- One option input of an option group: its text and whether it carries a
delete control. -/
structure OptField where
  value : String
  hasDelete : Bool
deriving DecidableEq

/-- getInputField: a fresh empty option input (no delete control yet). -/
def newOptionField : OptField := { value := "", hasDelete := false }

/-- The emptiness scan of addOptions: the edited input and all its siblings
are non-empty. -/
def noEmptyFields (g : List OptField) : Bool :=
  g.all (fun f => decide (0 < f.value.length))

/-- Insert the fresh input right after the edited one. -/
def insertAfter (g : List OptField) (idx : Nat) (f : OptField) : List OptField :=
  g.take (idx + 1) ++ f :: g.drop (idx + 1)

/-- The delete-affordance pass of addOptions: remove every delete control,
then append one to each option field except the last. -/
def setDelAux : Nat → Nat → List OptField → List OptField
  | _, _, [] => []
  | i, n, f :: rest => { f with hasDelete := decide (i + 1 < n) } :: setDelAux (i + 1) n rest

def setDeleteAffordances (g : List OptField) : List OptField :=
  setDelAux 0 g.length g

/-- addOptions of explorer.js, for the input at position idx of its group:
append a fresh empty input after it when no field of the group is empty,
then recompute the delete affordances. -/
def addOptions (g : List OptField) (idx : Nat) : List OptField :=
  let g1 := if noEmptyFields g then insertAfter g idx newOptionField else g
  setDeleteAffordances g1

/-- deleteOption of explorer.js, for the delete control of the field at
position idx: remove the field and, when exactly one remains, its delete
control. -/
def deleteOption (g : List OptField) (idx : Nat) : List OptField :=
  let g1 := g.eraseIdx idx
  if g1.length = 1 then g1.map (fun f => { f with hasDelete := false }) else g1

/-- Number of empty inputs of a group. -/
def countEmpty : List OptField → Nat
  | [] => 0
  | f :: rest => (if f.value.length = 0 then 1 else 0) + countEmpty rest

/-- The claimed option-group invariant: at most one empty input, and a sole
remaining input carries no delete control. -/
def optGroupInv (g : List OptField) : Prop :=
  countEmpty g ≤ 1 ∧ (g.length = 1 → ∀ f ∈ g, f.hasDelete = false)

instance decOptGroupInv (g : List OptField) : Decidable (optGroupInv g) :=
  inferInstanceAs (Decidable (_ ∧ _))

/-- An editing step on an option group. -/
inductive OptOp
  | add (idx : Nat)
  | del (idx : Nat)
deriving DecidableEq

def applyOp (g : List OptField) : OptOp → List OptField
  | OptOp.add idx => addOptions g idx
  | OptOp.del idx => deleteOption g idx

def applyOps (g : List OptField) (ops : List OptOp) : List OptField :=
  ops.foldl applyOp g

/- ---------------------------------------------------------------------
Concrete states used by counterexamples and witnesses.
--------------------------------------------------------------------- -/

/-- A text row with an empty label. -/
def fieldRowEmpty : EditorField := ⟨"1", "", FieldType.text, []⟩

/-- A text row labelled a. -/
def fieldRowA1 : EditorField := ⟨"2", "a", FieldType.text, []⟩

/-- A second text row labelled a. -/
def fieldRowA2 : EditorField := ⟨"3", "a", FieldType.text, []⟩

/-- A checked checkbox input with value A. -/
def c2CheckedBox : DomEl :=
  { tag := "input", checked := true, valAttr := some "A",
    classes := ["post-annotation-input", "option-o1"] }

/-- An unchecked checkbox input with value B. -/
def c2UncheckedBox : DomEl :=
  { tag := "input", checked := false, valAttr := some "B",
    classes := ["post-annotation-input", "option-o2"] }

/-- A rendered checkbox widget whose first option is checked. -/
def c2Widget : PostAnnotationEl :=
  { el := { tag := "div", checked := false, valAttr := none,
            classes := ["post-annotation", "field-f1", "type-checkbox", "item-id-42"] },
    label := "L", textInputVal := "", dropdownVal := "",
    optionInputs := [c2CheckedBox, c2UncheckedBox] }

/- ---------------------------------------------------------------------
Theorems.
--------------------------------------------------------------------- -/

/-- C7: for both POST endpoints the success branch of the response handler
is taken if and only if the response value is exactly the string success;
every other value takes the failure branch. -/
theorem c7_success_iff_literal_success :
    ∀ r : JSVal,
      (saveAnnotationFieldsResponse r = FieldsSaveOutcome.hideEditorDisableApply ↔
        r = JSVal.str "success") ∧
      (saveAnnotationsResponse r = AnnSaveOutcome.savedAndDisabled ↔
        r = JSVal.str "success") := by
  intro r
  by_cases h : r = JSVal.str "success" <;>
    simp [saveAnnotationFieldsResponse, saveAnnotationsResponse, h]

/-- C10: for every plain-object schema argument, including the empty object,
the early-return guard of saveAnnotationFields compares a length property
that is undefined (or a field definition object), never a number below one,
so the POST is always issued with the schema as body. -/
theorem c10_empty_schema_still_posted :
    ∀ (dataset_key : String) (af : List (String × FieldDef)),
      saveAnnotationFields dataset_key af =
        some { url := "explorer/save_annotation_fields/" ++ dataset_key, body := af } := by
  intro key af
  rcases h : List.lookup "length" af with _ | fd <;>
    simp [saveAnnotationFields, jsLt, lengthProp, jsToNumber, h]

/-- C2 (code bug): on a rendered checkbox widget with options A and B where
the A checkbox is checked, parseAnnotation yields value undefined, although
the checked option labels are exactly A: the each-callback tests the
enclosing div instead of the iterated checkbox input. -/
theorem c2_checkbox_value_lost :
    (parseAnnotationWidget c2Widget).rtype = "checkbox" ∧
    checkedOptionLabels c2Widget.optionInputs = ["A"] ∧
    (parseAnnotationWidget c2Widget).value = none ∧
    (parseAnnotationWidget c2Widget).value ≠ some (AnnVal.list ["A"]) := by
  decide

/-- C4: when parseAnnotationFields returns a string, applyAnnotationFields
shows that warning, performs no network call and leaves every per-item
widget untouched: the submission is blocked entirely. -/
theorem c4_invalid_schema_blocks_submission
    (fields : List EditorField) (original_columns : List String)
    (dataset_key : String) (page : List (String × FieldState)) (nposts : Nat)
    (w : String)
    (h : parseAnnotationFields fields original_columns = ParseResult.str w) :
    applyAnnotationFields fields original_columns dataset_key page nposts =
      { warned := some w, posted := none, page := page } := by
  unfold applyAnnotationFields
  rw [h]

/-- Witness for C4 at a one-row editor whose label is empty. -/
theorem c4_invalid_schema_blocks_submission_witness :
    applyAnnotationFields [fieldRowEmpty] [] "key" [] 0 =
      { warned := some msgEmptyLabel, posted := none, page := [] } :=
  c4_invalid_schema_blocks_submission [fieldRowEmpty] [] "key" [] 0 msgEmptyLabel
    (by decide)

/-- C6: a second trigger that fires while the save control still carries the
disabled class set by the first save issues no further request, so exactly
one request is issued; once the class has been cleared a further trigger
issues a second request. -/
theorem c6_single_flight (s : SaveState) (t1 t2 t3 : SaveTrigger)
    (h1 : s.disabled = false)
    (h2 : t1 = SaveTrigger.timerTick → s.editsMade = true)
    (h3 : t3 = SaveTrigger.timerTick → s.editsMade = true) :
    (triggerStep t1 s).disabled = true ∧
    (triggerStep t1 s).requests = s.requests + 1 ∧
    triggerStep t2 (triggerStep t1 s) = triggerStep t1 s ∧
    (triggerStep t3 (responseStep false (triggerStep t2 (triggerStep t1 s)))).requests
      = s.requests + 2 := by
  have e1 : triggerStep t1 s = saveAnnotationsCall s := by
    cases t1 <;> simp_all [triggerStep]
  have e2 : triggerStep t2 (saveAnnotationsCall s) = saveAnnotationsCall s := by
    cases t2 <;> simp [triggerStep, saveAnnotationsCall]
  refine ⟨by simp [e1, saveAnnotationsCall], by simp [e1, saveAnnotationsCall],
    by rw [e1, e2], ?_⟩
  rw [e1, e2]
  cases t3 <;> simp_all [triggerStep, responseStep, saveAnnotationsCall]

/-- Witness for C6: manual save, then a timer tick inside the disabled
window, then a pagination click after a failure response cleared the class. -/
theorem c6_single_flight_witness :
    (triggerStep SaveTrigger.manualClick ⟨false, true, 0⟩).disabled = true ∧
    (triggerStep SaveTrigger.manualClick ⟨false, true, 0⟩).requests = 0 + 1 ∧
    triggerStep SaveTrigger.timerTick (triggerStep SaveTrigger.manualClick ⟨false, true, 0⟩) =
      triggerStep SaveTrigger.manualClick ⟨false, true, 0⟩ ∧
    (triggerStep SaveTrigger.paginationClick (responseStep false
      (triggerStep SaveTrigger.timerTick
        (triggerStep SaveTrigger.manualClick ⟨false, true, 0⟩)))).requests = 0 + 2 :=
  c6_single_flight ⟨false, true, 0⟩ SaveTrigger.manualClick SaveTrigger.timerTick
    SaveTrigger.paginationClick rfl (fun _ => rfl) (fun _ => rfl)

theorem countEmpty_append (a b : List OptField) :
    countEmpty (a ++ b) = countEmpty a + countEmpty b := by
  induction a with
  | nil => simp [countEmpty]
  | cons f rest ih =>
    show countEmpty (f :: (rest ++ b)) = countEmpty (f :: rest) + countEmpty b
    simp only [countEmpty, ih]
    omega


theorem countEmpty_setDelAux (i n : Nat) (g : List OptField) :
    countEmpty (setDelAux i n g) = countEmpty g := by
  induction g generalizing i with
  | nil => rfl
  | cons f rest ih => simp [setDelAux, countEmpty, ih]

theorem length_setDelAux (i n : Nat) (g : List OptField) :
    (setDelAux i n g).length = g.length := by
  induction g generalizing i with
  | nil => rfl
  | cons f rest ih => simp [setDelAux, ih]

theorem countEmpty_setDelete (g : List OptField) :
    countEmpty (setDeleteAffordances g) = countEmpty g :=
  countEmpty_setDelAux 0 g.length g

theorem length_setDelete (g : List OptField) :
    (setDeleteAffordances g).length = g.length :=
  length_setDelAux 0 g.length g

theorem noEmptyFields_countEmpty (g : List OptField) (h : noEmptyFields g = true) :
    countEmpty g = 0 := by
  induction g with
  | nil => rfl
  | cons f rest ih =>
    rw [noEmptyFields, List.all_cons, Bool.and_eq_true] at h
    have h1 : ¬ f.value.length = 0 := by
      have := of_decide_eq_true h.1
      omega
    have h2 := ih h.2
    simp [countEmpty, if_neg h1, h2]

theorem countEmpty_eraseIdx (g : List OptField) (idx : Nat) :
    countEmpty (g.eraseIdx idx) ≤ countEmpty g := by
  induction g generalizing idx with
  | nil => simp [List.eraseIdx]
  | cons f rest ih =>
    cases idx with
    | zero =>
      simp only [List.eraseIdx, countEmpty]
      exact Nat.le_add_left _ _
    | succ n =>
      simp only [List.eraseIdx, countEmpty]
      exact Nat.add_le_add_left (ih n) _

theorem countEmpty_clearDelete (g : List OptField) :
    countEmpty (g.map (fun f => { f with hasDelete := false })) = countEmpty g := by
  induction g with
  | nil => rfl
  | cons f rest ih => simp [countEmpty, ih]

theorem setDeleteAffordances_singleton (x : OptField) :
    setDeleteAffordances [x] = [{ x with hasDelete := false }] := rfl

theorem setDeleteAffordances_length_one (g : List OptField) :
    (setDeleteAffordances g).length = 1 → ∀ f ∈ setDeleteAffordances g, f.hasDelete = false := by
  intro hlen
  have hg : g.length = 1 := by rw [← length_setDelete g]; exact hlen
  obtain ⟨x, hx⟩ := List.length_eq_one.mp hg
  subst hx
  rw [setDeleteAffordances_singleton]
  intro f hf
  rw [List.mem_singleton] at hf
  rw [hf]

theorem addOptions_inv (g : List OptField) (idx : Nat) (h : countEmpty g ≤ 1) :
    optGroupInv (addOptions g idx) := by
  show optGroupInv (setDeleteAffordances
    (if noEmptyFields g then insertAfter g idx newOptionField else g))
  refine ⟨?_, setDeleteAffordances_length_one _⟩
  rw [countEmpty_setDelete]
  by_cases hne : noEmptyFields g
  · rw [if_pos hne]
    have : countEmpty (insertAfter g idx newOptionField) = countEmpty g + 1 := by
      unfold insertAfter
      rw [countEmpty_append]
      have hcons : countEmpty (newOptionField :: g.drop (idx + 1)) =
          1 + countEmpty (g.drop (idx + 1)) := by
        simp [countEmpty, newOptionField]
      rw [hcons]
      have hsplit : countEmpty (g.take (idx + 1)) + countEmpty (g.drop (idx + 1)) =
          countEmpty g := by
        rw [← countEmpty_append, List.take_append_drop]
      omega
    rw [this, noEmptyFields_countEmpty g hne]
  · rw [if_neg hne]
    exact h

theorem deleteOption_inv (g : List OptField) (idx : Nat) (h : countEmpty g ≤ 1) :
    optGroupInv (deleteOption g idx) := by
  show optGroupInv
    (if (g.eraseIdx idx).length = 1
     then (g.eraseIdx idx).map (fun f => { f with hasDelete := false })
     else g.eraseIdx idx)
  by_cases hlen : (g.eraseIdx idx).length = 1
  · rw [if_pos hlen]
    refine ⟨?_, ?_⟩
    · rw [countEmpty_clearDelete]
      exact le_trans (countEmpty_eraseIdx g idx) h
    · intro _ f hf
      rw [List.mem_map] at hf
      obtain ⟨a, _, ha⟩ := hf
      rw [← ha]
  · rw [if_neg hlen]
    exact ⟨le_trans (countEmpty_eraseIdx g idx) h, fun h1 => absurd h1 hlen⟩

/-- C8: after any sequence of addOptions and deleteOption steps on an option
group satisfying the invariant, at most one option input is empty (hence at
most one trailing empty input exists) and a sole remaining input carries no
delete control. -/
theorem c8_option_group_invariant (g : List OptField) (ops : List OptOp)
    (h : optGroupInv g) : optGroupInv (applyOps g ops) := by
  induction ops generalizing g with
  | nil => exact h
  | cons op rest ih =>
    show optGroupInv (applyOps (applyOp g op) rest)
    apply ih
    cases op with
    | add idx => exact addOptions_inv g idx h.1
    | del idx => exact deleteOption_inv g idx h.1

/-- Witness for C8: the freshly toggled group of one empty input, grown and
shrunk again. -/
theorem c8_option_group_invariant_witness :
    optGroupInv [newOptionField] ∧
    optGroupInv (applyOps [newOptionField] [OptOp.add 0, OptOp.add 0, OptOp.del 0]) :=
  ⟨by decide,
   c8_option_group_invariant [newOptionField] [OptOp.add 0, OptOp.add 0, OptOp.del 0]
     (by decide)⟩

theorem carriedVal_eq (v : String) : carriedVal v = v := by
  unfold carriedVal
  by_cases h : 0 < v.length
  · rw [if_pos h]
  · rw [if_neg h]
    have hv : v.length = 0 := Nat.eq_zero_of_not_pos h
    cases v with
    | mk data =>
      have hv2 : data.length = 0 := hv
      have hd : data = [] := List.length_eq_zero.mp hv2
      subst hd
      rfl

theorem map_carriedVal (l : List String) : l.map carriedVal = l := by
  induction l with
  | nil => rfl
  | cons v rest ih => simp [carriedVal_eq, ih]

/-- C3: on a valid schema, a field whose type changed between text and
textarea keeps the current text value of every per-item widget in the
replacement elements; a type change between any other pair of types removes
the widgets and rebuilds them empty, discarding all prior values. -/
theorem c3_type_conversion (fd : FieldDef) (st : FieldState) (fid : String) (n : Nat)
    (hne : fd.ftype ≠ st.ftype) :
    ((text_fields.contains fd.ftype ∧ text_fields.contains st.ftype) →
      convertFieldState fd st =
        some { ftype := fd.ftype, label := fd.label, values := st.values, opts := st.opts } ∧
      reconcilePage [(fid, fd)] [(fid, st)] n =
        [(fid, { ftype := fd.ftype, label := fd.label, values := st.values, opts := st.opts })]) ∧
    (¬ (text_fields.contains fd.ftype ∧ text_fields.contains st.ftype) →
      convertFieldState fd st = none ∧
      reconcilePage [(fid, fd)] [(fid, st)] n = [(fid, freshFieldState fd n)] ∧
      (freshFieldState fd n).values = List.replicate n "") := by
  constructor
  · intro ht
    have hc : convertFieldState fd st =
        some { ftype := fd.ftype, label := fd.label, values := st.values, opts := st.opts } := by
      unfold convertFieldState
      rw [if_neg hne, if_pos ht, map_carriedVal]
    refine ⟨hc, ?_⟩
    simp [reconcilePage, List.lookup, hc]
  · intro ht
    have hc : convertFieldState fd st = none := by
      unfold convertFieldState
      rw [if_neg hne, if_neg ht]
    refine ⟨hc, ?_, rfl⟩
    simp [reconcilePage, List.lookup, hc]

/-- Witness for C3: a text row becoming textarea keeps its value, a text row
becoming checkbox is rebuilt empty. -/
theorem c3_type_conversion_witness :
    convertFieldState ⟨FieldType.textarea, "L", none⟩ ⟨FieldType.text, "K", ["x"], []⟩ =
      some ⟨FieldType.textarea, "L", ["x"], []⟩ ∧
    convertFieldState ⟨FieldType.checkbox, "L", some [("1", "A")]⟩
      ⟨FieldType.text, "K", ["x"], []⟩ = none :=
  ⟨((c3_type_conversion ⟨FieldType.textarea, "L", none⟩ ⟨FieldType.text, "K", ["x"], []⟩
      "f" 1 (by decide)).1 (by decide)).1,
   ((c3_type_conversion ⟨FieldType.checkbox, "L", some [("1", "A")]⟩
      ⟨FieldType.text, "K", ["x"], []⟩ "f" 1 (by decide)).2 (by decide)).1⟩

theorem collapseWsAux_true_of_ws (r y : List Char) (h : ∀ c ∈ r, isJsWs c = true) :
    collapseWsAux true (r ++ y) = collapseWsAux true y := by
  induction r with
  | nil => rfl
  | cons c rest ih =>
    have hc := h c (List.mem_cons_self c rest)
    show collapseWsAux true (c :: (rest ++ y)) = collapseWsAux true y
    simp only [collapseWsAux, hc, ite_true, if_true]
    exact ih (fun d hd => h d (List.mem_cons_of_mem _ hd))

theorem collapseWsAux_ws_run (b : Bool) (r y : List Char) (hr : r ≠ [])
    (h : ∀ c ∈ r, isJsWs c = true) :
    collapseWsAux b (r ++ y) = collapseWsAux b (' ' :: y) := by
  cases r with
  | nil => exact absurd rfl hr
  | cons c rest =>
    have hc := h c (List.mem_cons_self c rest)
    have hrest : ∀ d ∈ rest, isJsWs d = true := fun d hd => h d (List.mem_cons_of_mem _ hd)
    have hsp : isJsWs ' ' = true := by decide
    cases b
    · show collapseWsAux false (c :: (rest ++ y)) = collapseWsAux false (' ' :: y)
      simp only [collapseWsAux, hc, hsp, ite_true, if_true]
      rw [collapseWsAux_true_of_ws rest y hrest]
    · show collapseWsAux true (c :: (rest ++ y)) = collapseWsAux true (' ' :: y)
      simp only [collapseWsAux, hc, hsp, ite_true, if_true]
      rw [collapseWsAux_true_of_ws rest y hrest]

theorem collapseWs_run_replace (l1 r l2 : List Char) (hr : r ≠ [])
    (h : ∀ c ∈ r, isJsWs c = true) :
    collapseWs (l1 ++ r ++ l2) = collapseWs (l1 ++ ' ' :: l2) := by
  unfold collapseWs
  suffices H : ∀ b, collapseWsAux b (l1 ++ r ++ l2) = collapseWsAux b (l1 ++ ' ' :: l2) from
    H false
  intro b
  induction l1 generalizing b with
  | nil =>
    show collapseWsAux b (r ++ l2) = collapseWsAux b (' ' :: l2)
    exact collapseWsAux_ws_run b r l2 hr h
  | cons c rest ih =>
    show collapseWsAux b (c :: (rest ++ r ++ l2)) = collapseWsAux b (c :: (rest ++ ' ' :: l2))
    by_cases hc : isJsWs c = true <;> cases b <;>
      simp [collapseWsAux, hc, ← List.append_assoc, ih true, ih false]

theorem collapseWs_all_ws (l : List Char) (hne : l ≠ [])
    (h : ∀ c ∈ l, isJsWs c = true) : collapseWs l = [' '] := by
  cases l with
  | nil => exact absurd rfl hne
  | cons c rest =>
    have hc := h c (List.mem_cons_self c rest)
    have hrest : ∀ d ∈ rest, isJsWs d = true := fun d hd => h d (List.mem_cons_of_mem _ hd)
    show collapseWsAux false (c :: rest) = [' ']
    simp only [collapseWsAux, hc, ite_true, if_true]
    have htail : collapseWsAux true rest = [] := by
      have h2 := collapseWsAux_true_of_ws rest [] hrest
      simpa using h2
    simp [htail]

theorem labelWarning_eq (cols prev : List String) (label w : String) :
    labelWarning cols prev label w =
      match labelMsg cols prev label with
      | some m => m
      | none => w := by
  unfold labelWarning labelMsg
  split_ifs <;> rfl

theorem foldl_processOption (opts : List (String × String)) (st : OptState) :
    (opts.foldl processOption st).warning =
      (if dupFrom st.option_labels opts = true then msgDuplicateOption else st.warning) ∧
    (opts.foldl processOption st).no_options_added =
      (st.no_options_added && noneKept st.option_labels opts) := by
  induction opts generalizing st with
  | nil => simp [dupFrom, noneKept]
  | cons o rest ih =>
    rw [List.foldl_cons]
    simp only [dupFrom, noneKept]
    by_cases h1 : o.2 ∉ st.option_labels ∧ 0 < o.2.length
    · simp only [processOption, if_pos h1]
      have h := ih
        { st with
          options := st.options ++ [o],
          option_labels := st.option_labels ++ [o.2],
          no_options_added := false }
      constructor
      · simpa using h.1
      · have h2 := h.2
        simp only [Bool.false_and] at h2
        simp [h2]
    · simp only [processOption, if_neg h1]
      by_cases h2 : o.2 ∈ st.option_labels
      · simp only [if_pos h2]
        have h := ih { st with warning := msgDuplicateOption }
        constructor
        · have h1' := h.1
          simp only at h1'
          rw [h1']
          simp [ite_self]
        · simpa using h.2
      · simp only [if_neg h2]
        exact ih st

theorem noneKept_nil_iff (opts : List (String × String)) :
    noneKept [] opts = true ↔ nonemptyOptionLabels opts = [] := by
  induction opts with
  | nil => simp [noneKept, nonemptyOptionLabels]
  | cons o rest ih =>
    simp only [noneKept, nonemptyOptionLabels]
    by_cases h : 0 < o.2.length
    · have hcond : o.2 ∉ ([] : List String) ∧ 0 < o.2.length := ⟨List.not_mem_nil o.2, h⟩
      rw [if_pos hcond, if_pos h]
      simp
    · have hcond : ¬ (o.2 ∉ ([] : List String) ∧ 0 < o.2.length) := fun hc => h hc.2
      rw [if_neg hcond, if_neg h]
      exact ih

theorem dupFrom_eq_false_iff (opts : List (String × String)) :
    ∀ seen : List String, (∀ l ∈ seen, 0 < l.length) → seen.Nodup →
      (dupFrom seen opts = false ↔ (seen ++ nonemptyOptionLabels opts).Nodup) := by
  induction opts with
  | nil =>
    intro seen hne hnd
    simp [dupFrom, nonemptyOptionLabels, hnd]
  | cons o rest ih =>
    intro seen hne hnd
    simp only [dupFrom, nonemptyOptionLabels]
    by_cases hmem : o.2 ∈ seen
    · have hlen : 0 < o.2.length := hne o.2 hmem
      have hcond : ¬ (o.2 ∉ seen ∧ 0 < o.2.length) := fun hc => hc.1 hmem
      rw [if_neg hcond, if_pos hmem, if_pos hlen]
      constructor
      · intro hft
        simp at hft
      · intro hntail
        exfalso
        have hdisj := (List.nodup_append.mp hntail).2.2
        exact hdisj hmem (List.mem_cons_self _ _)
    · by_cases hlen : 0 < o.2.length
      · have hcond : o.2 ∉ seen ∧ 0 < o.2.length := ⟨hmem, hlen⟩
        rw [if_pos hcond, if_pos hlen]
        have hne2 : ∀ l ∈ seen ++ [o.2], 0 < l.length := by
          intro l hl
          rcases List.mem_append.mp hl with hl2 | hl2
          · exact hne l hl2
          · rw [List.mem_singleton.mp hl2]
            exact hlen
        have hnd2 : (seen ++ [o.2]).Nodup := by
          rw [List.nodup_append]
          refine ⟨hnd, List.nodup_singleton _, ?_⟩
          intro a ha hb
          rw [List.mem_singleton] at hb
          subst hb
          exact hmem ha
        rw [ih (seen ++ [o.2]) hne2 hnd2, List.append_assoc, List.singleton_append]
      · have hcond : ¬ (o.2 ∉ seen ∧ 0 < o.2.length) := fun hc => hlen hc.2
        rw [if_neg hcond, if_neg hmem, if_neg hlen]
        exact ih seen hne hnd

theorem optionPhase_warning (opts : List (String × String)) (w : String) :
    (optionPhase opts w).warning =
      match optionMsgCore opts with
      | some m => m
      | none => w := by
  have h := foldl_processOption opts
    { options := [], option_labels := [], no_options_added := true, warning := w }
  have h1 : (opts.foldl processOption
      { options := [], option_labels := [], no_options_added := true, warning := w }).warning =
      if dupFrom [] opts = true then msgDuplicateOption else w := h.1
  have h2 : (opts.foldl processOption
      { options := [], option_labels := [], no_options_added := true, warning := w }).no_options_added =
      noneKept [] opts := by
    have := h.2
    simpa using this
  show (if (opts.foldl processOption
      { options := [], option_labels := [], no_options_added := true, warning := w }).no_options_added = true
    then msgNoOptions
    else (opts.foldl processOption
      { options := [], option_labels := [], no_options_added := true, warning := w }).warning) =
    match optionMsgCore opts with
    | some m => m
    | none => w
  rw [h1, h2]
  unfold optionMsgCore
  by_cases hempty : nonemptyOptionLabels opts = []
  · have hk : noneKept [] opts = true := (noneKept_nil_iff opts).mpr hempty
    rw [if_pos hk, if_pos hempty]
  · have hk : noneKept [] opts = false := by
      cases hkk : noneKept [] opts
      · rfl
      · exact absurd ((noneKept_nil_iff opts).mp hkk) hempty
    rw [hk, if_neg (by simp : ¬ (false = true)), if_neg hempty]
    by_cases hnd : (nonemptyOptionLabels opts).Nodup
    · have hd : dupFrom [] opts = false := by
        rw [dupFrom_eq_false_iff opts [] (by simp) List.nodup_nil]
        simpa using hnd
      rw [hd, if_neg (by simp : ¬ (false = true)), if_neg (by simpa using hnd)]
    · have hd : dupFrom [] opts = true := by
        cases hdd : dupFrom [] opts
        · exfalso
          have hgot := (dupFrom_eq_false_iff opts [] (by simp) List.nodup_nil).mp hdd
          simp at hgot
          exact hnd hgot
        · rfl
      rw [hd, if_pos rfl, if_pos (by simpa using hnd)]

theorem processField_labels (cols : List String) (st : ParseState) (f : EditorField) :
    (processField cols st f).labels_added =
      st.labels_added ++ [collapseLabel f.label_input] := by
  simp only [processField]
  split <;> rfl

theorem processField_warning (cols : List String) (st : ParseState) (f : EditorField) :
    (processField cols st f).warning =
      match fieldMsg cols st.labels_added f with
      | some m => m
      | none => st.warning := by
  simp only [processField]
  split
  · next h =>
    show labelWarning cols st.labels_added (collapseLabel f.label_input) st.warning =
      match fieldMsg cols st.labels_added f with
      | some m => m
      | none => st.warning
    rw [labelWarning_eq]
    unfold fieldMsg optionMsg
    rw [if_pos h]
  · next h =>
    show (optionPhase f.option_inputs
        (labelWarning cols st.labels_added (collapseLabel f.label_input) st.warning)).warning =
      match fieldMsg cols st.labels_added f with
      | some m => m
      | none => st.warning
    rw [optionPhase_warning, labelWarning_eq]
    unfold fieldMsg optionMsg
    rw [if_neg h]
    cases optionMsgCore f.option_inputs <;> rfl

theorem parse_fold_warning (cols : List String) (fields : List EditorField) :
    ∀ st : ParseState,
      (fields.foldl (processField cols) st).warning =
        match lastFieldMsg cols st.labels_added fields with
        | some m => m
        | none => st.warning := by
  induction fields with
  | nil => intro st; simp [lastFieldMsg]
  | cons f rest ih =>
    intro st
    rw [List.foldl_cons, ih (processField cols st f), processField_labels]
    simp only [lastFieldMsg]
    cases lastFieldMsg cols (st.labels_added ++ [collapseLabel f.label_input]) rest with
    | some m => rfl
    | none =>
      rw [processField_warning]

theorem msgReservedLabel_pos (label : String) : 0 < (msgReservedLabel label).length := by
  have h : 0 < "Field label ".length := by decide
  simp [msgReservedLabel, String.length_append]
  omega

theorem fieldMsg_pos (cols prev : List String) (f : EditorField) (m : String)
    (h : fieldMsg cols prev f = some m) : 0 < m.length := by
  unfold fieldMsg at h
  have hlab : ∀ label, labelMsg cols prev label = some m → 0 < m.length := by
    intro label hl
    unfold labelMsg at hl
    split_ifs at hl <;> injection hl with hm <;> rw [← hm]
    · decide
    · decide
    · exact msgReservedLabel_pos label
  cases hoc : optionMsg f with
  | some m2 =>
    rw [hoc] at h
    injection h with hm
    subst hm
    unfold optionMsg optionMsgCore at hoc
    split_ifs at hoc <;> (injection hoc with hm2; rw [← hm2]; decide)
  | none =>
    rw [hoc] at h
    exact hlab _ h

theorem lastFieldMsg_pos (cols : List String) (fields : List EditorField) :
    ∀ (prev : List String) (m : String),
      lastFieldMsg cols prev fields = some m → 0 < m.length := by
  induction fields with
  | nil =>
    intro prev m h
    simp [lastFieldMsg] at h
  | cons f rest ih =>
    intro prev m h
    simp only [lastFieldMsg] at h
    cases hrest : lastFieldMsg cols (prev ++ [collapseLabel f.label_input]) rest with
    | some m2 =>
      rw [hrest] at h
      injection h with hm
      subst hm
      exact ih _ _ hrest
    | none =>
      rw [hrest] at h
      exact fieldMsg_pos cols prev f m h

theorem parse_str_iff (fields : List EditorField) (cols : List String) (w : String) :
    parseAnnotationFields fields cols = ParseResult.str w ↔
      lastFieldMsg cols [] fields = some w := by
  have hw : (fields.foldl (processField cols) ⟨[], "", []⟩).warning =
      match lastFieldMsg cols [] fields with
      | some m => m
      | none => "" := parse_fold_warning cols fields ⟨[], "", []⟩
  show (if 0 < (fields.foldl (processField cols) ⟨[], "", []⟩).warning.length
    then ParseResult.str (fields.foldl (processField cols) ⟨[], "", []⟩).warning
    else ParseResult.obj (fields.foldl (processField cols) ⟨[], "", []⟩).annotation_fields) =
      ParseResult.str w ↔ lastFieldMsg cols [] fields = some w
  rw [hw]
  cases h : lastFieldMsg cols [] fields with
  | some m =>
    have hm := lastFieldMsg_pos cols fields [] m h
    simp only [if_pos hm]
    constructor
    · intro he
      injection he with he2
      rw [he2]
    · intro he
      injection he with he2
      rw [he2]
  | none =>
    have hz : ¬ (0 < ("" : String).length) := by decide
    simp only [if_neg hz]
    constructor
    · intro he
      cases he
    · intro he
      cases he

/-- C5 (amended): the string parseAnnotationFields returns in place of the
schema is the warning set by the last validation failure encountered
(within one row the checks run in the documented order: empty label before
duplicate before reserved, then the option checks, which overwrite), since
every later failure overwrites the warning variable. -/
theorem c5_last_warning_returned :
    ∀ (fields : List EditorField) (cols : List String) (w : String),
      parseAnnotationFields fields cols = ParseResult.str w ↔
        lastFieldMsg cols [] fields = some w :=
  fun fields cols w => parse_str_iff fields cols w

/-- Counterexample to C5 as stated: with an empty-label row followed by two
rows sharing a label, the first failure is the empty-label warning of the
first row, but the function returns the duplicate-label warning set later. -/
theorem c5_first_warning_counterexample :
    parseAnnotationFields [fieldRowEmpty, fieldRowA1, fieldRowA2] [] =
      ParseResult.str msgDuplicateLabel ∧
    fieldMsg [] [] fieldRowEmpty = some msgEmptyLabel ∧
    msgDuplicateLabel ≠ msgEmptyLabel := by
  refine ⟨by decide, by decide, by decide⟩

theorem labelMsg_isSome_iff (cols prev : List String) (label : String) :
    (labelMsg cols prev label).isSome = true ↔
      (label.length = 0 ∨ label ∈ prev ∨ label ∈ cols) := by
  unfold labelMsg
  split_ifs with h1 h2 h3
  · simp [h1]
  · simp [h2]
  · simp [h3]
  · simp [h1, h2, h3]

theorem optionMsgCore_isSome_iff (opts : List (String × String)) :
    (optionMsgCore opts).isSome = true ↔ ¬ OptionsValid opts := by
  unfold optionMsgCore OptionsValid
  split_ifs with h1 h2
  · simp [h1]
  · simp [h1, h2]
  · simp [h1, h2]

theorem fieldMsg_isSome_iff (cols prev : List String) (f : EditorField) :
    (fieldMsg cols prev f).isSome = true ↔ FieldFails cols prev f := by
  unfold fieldMsg optionMsg
  by_cases htext : f.ftype = FieldType.text ∨ f.ftype = FieldType.textarea
  · rw [if_pos htext]
    have hopt : ¬ (f.ftype = FieldType.dropdown ∨ f.ftype = FieldType.checkbox) := by
      rcases htext with h | h <;> rw [h] <;> rintro (h2 | h2) <;> cases h2
    show (labelMsg cols prev (collapseLabel f.label_input)).isSome = true ↔
      FieldFails cols prev f
    rw [labelMsg_isSome_iff]
    unfold FieldFails
    simp [hopt]
  · rw [if_neg htext]
    have hopt : f.ftype = FieldType.dropdown ∨ f.ftype = FieldType.checkbox := by
      cases hft : f.ftype with
      | text => exact absurd (Or.inl hft) htext
      | textarea => exact absurd (Or.inr hft) htext
      | dropdown => exact Or.inl rfl
      | checkbox => exact Or.inr rfl
    cases hoc : optionMsgCore f.option_inputs with
    | some m =>
      have hnv : ¬ OptionsValid f.option_inputs := by
        rw [← optionMsgCore_isSome_iff, hoc]
        rfl
      constructor
      · intro _
        exact Or.inr (Or.inr (Or.inr ⟨hopt, hnv⟩))
      · intro _
        rfl
    | none =>
      have hv : OptionsValid f.option_inputs := by
        by_contra hnv
        have hgot := (optionMsgCore_isSome_iff f.option_inputs).mpr hnv
        rw [hoc] at hgot
        cases hgot
      show (labelMsg cols prev (collapseLabel f.label_input)).isSome = true ↔
        FieldFails cols prev f
      rw [labelMsg_isSome_iff]
      unfold FieldFails
      simp [hv]

theorem anyFieldFails_iff (cols : List String) (fields : List EditorField) :
    ∀ prev : List String,
      (AnyFieldFails cols prev fields ↔ (lastFieldMsg cols prev fields).isSome = true) := by
  induction fields with
  | nil =>
    intro prev
    simp [AnyFieldFails, lastFieldMsg]
  | cons f rest ih =>
    intro prev
    simp only [AnyFieldFails, lastFieldMsg]
    cases hrest : lastFieldMsg cols (prev ++ [collapseLabel f.label_input]) rest with
    | some m =>
      constructor
      · intro _
        rfl
      · intro _
        right
        rw [ih (prev ++ [collapseLabel f.label_input]), hrest]
        rfl
    | none =>
      have hrf : ¬ AnyFieldFails cols (prev ++ [collapseLabel f.label_input]) rest := by
        rw [ih (prev ++ [collapseLabel f.label_input]), hrest]
        simp
      show FieldFails cols prev f ∨ _ ↔ (fieldMsg cols prev f).isSome = true
      rw [fieldMsg_isSome_iff]
      constructor
      · rintro (h | h)
        · exact h
        · exact absurd h hrf
      · intro h
        exact Or.inl h

/-- C1: parseAnnotationFields returns a string rather than the schema
object precisely when at least one editor row fails a validation rule:
non-empty label, label unique among the rows parsed so far, label not a
reserved dataset column name, and, for dropdown/checkbox rows, an option
group with at least one non-empty option whose non-empty options are
pairwise distinct. -/
theorem c1_parse_error_iff_field_invalid (fields : List EditorField) (cols : List String) :
    (∃ w, parseAnnotationFields fields cols = ParseResult.str w) ↔
      AnyFieldFails cols [] fields := by
  rw [anyFieldFails_iff cols fields []]
  constructor
  · rintro ⟨w, hw⟩
    rw [(parse_str_iff fields cols w).mp hw]
    rfl
  · intro h
    cases hsome : lastFieldMsg cols [] fields with
    | some m => exact ⟨m, (parse_str_iff fields cols m).mpr hsome⟩
    | none =>
      rw [hsome] at h
      cases h

/-- C9: the label replacement collapses every maximal whitespace run to a
single space before validating and storing; hence a whitespace-only label
normalizes to a single space and passes the non-empty check, and two labels
differing only in whitespace runs collapse to the same label and are flagged
as duplicates. -/
theorem c9_label_whitespace_collapse :
    (∀ l1 r l2 : List Char, r ≠ [] → (∀ c ∈ r, isJsWs c = true) →
      collapseWs (l1 ++ r ++ l2) = collapseWs (l1 ++ ' ' :: l2)) ∧
    (∀ l : List Char, l ≠ [] → (∀ c ∈ l, isJsWs c = true) →
      collapseLabel (String.mk l) = " " ∧
      parseAnnotationFields [⟨"1", String.mk l, FieldType.text, []⟩] [] =
        ParseResult.obj [("1", ⟨FieldType.text, " ", none⟩)]) ∧
    (∀ (id1 id2 ra rb : String) (cols : List String),
      collapseLabel ra = collapseLabel rb →
      0 < (collapseLabel ra).length →
      collapseLabel ra ∉ cols →
      parseAnnotationFields
          [⟨id1, ra, FieldType.text, []⟩, ⟨id2, rb, FieldType.text, []⟩] cols =
        ParseResult.str msgDuplicateLabel) := by
  refine ⟨collapseWs_run_replace, ?_, ?_⟩
  · intro l hne h
    have hc : collapseWs l = [' '] := collapseWs_all_ws l hne h
    have hl : collapseLabel (String.mk l) = " " := by
      unfold collapseLabel
      rw [show (String.mk l).data = l from rfl, hc]
    refine ⟨hl, ?_⟩
    have h1 : ¬ ((" " : String).length = 0) := by decide
    have h2 : ¬ (0 < ("" : String).length) := by decide
    simp [parseAnnotationFields, processField, labelWarning, hl, upsert, h1, h2]
  · intro id1 id2 ra rb cols heq hpos hmem
    rw [parse_str_iff]
    have hfb : fieldMsg cols [collapseLabel ra] ⟨id2, rb, FieldType.text, []⟩ =
        some msgDuplicateLabel := by
      unfold fieldMsg optionMsg
      rw [if_pos (Or.inl rfl)]
      show labelMsg cols [collapseLabel ra] (collapseLabel rb) = some msgDuplicateLabel
      unfold labelMsg
      rw [← heq]
      rw [if_neg (by omega : ¬ (collapseLabel ra).length = 0)]
      rw [if_pos (List.mem_singleton.mpr rfl)]
    simp only [lastFieldMsg, List.nil_append]
    rw [hfb]

/-- Witness for C9: a run of two spaces between letters, a whitespace-only
label, and two labels differing only in a doubled space. -/
theorem c9_label_whitespace_collapse_witness :
    collapseWs (['a'] ++ [' ', ' '] ++ ['b']) = collapseWs (['a'] ++ ' ' :: ['b']) ∧
    collapseLabel (String.mk [' ', '\t']) = " " ∧
    parseAnnotationFields [⟨"1", String.mk [' ', '\t'], FieldType.text, []⟩] [] =
      ParseResult.obj [("1", ⟨FieldType.text, " ", none⟩)] ∧
    parseAnnotationFields
        [⟨"1", "a  b", FieldType.text, []⟩, ⟨"2", "a b", FieldType.text, []⟩] [] =
      ParseResult.str msgDuplicateLabel :=
  ⟨c9_label_whitespace_collapse.1 ['a'] [' ', ' '] ['b'] (by decide) (by decide),
   (c9_label_whitespace_collapse.2.1 [' ', '\t'] (by decide) (by decide)).1,
   (c9_label_whitespace_collapse.2.1 [' ', '\t'] (by decide) (by decide)).2,
   c9_label_whitespace_collapse.2.2 "1" "2" "a  b" "a b" []
     (by decide) (by decide) (by decide)⟩
